import Mathlib

set_option maxRecDepth 100000

/-!
Verification of the secp256k1 address-derivation and signature-recovery
diagnostics of this repository.  Byte strings are modelled as `List Nat`
(one entry per byte); the Keccak-256 hash used by the scripts (the
`eth_utils.keccak` function, i.e. original Keccak with `0x01` padding)
is embedded executably so concrete vectors can be checked by the kernel.
-/

namespace SafeAndroid

/-- Byte strings, one natural number per byte. -/
abbrev Bytes := List Nat

/-- Interpret a byte string as a big-endian natural number. -/
def beNat (l : Bytes) : Nat := l.foldl (fun acc b => acc * 256 + b) 0

/-- The `k` low-order bytes of `n`, little-endian. -/
def natToLE : Nat → Nat → Bytes
  | 0, _ => []
  | k + 1, n => n % 256 :: natToLE k (n / 256)

/-- The `k` low-order bytes of `n`, big-endian. -/
def natToBE (k n : Nat) : Bytes := (natToLE k n).reverse

/-- The last `n` bytes of a byte string (Python `l[-n:]` for `0 < n ≤ len`). -/
def lastBytes (n : Nat) (l : Bytes) : Bytes := l.drop (l.length - n)

/-! ### Keccak-256 (as used by `eth_utils.keccak`) -/

/-- Left-rotation of a 64-bit lane. -/
def rotl64 (x n : Nat) : Nat :=
  ((x <<< (n % 64)) ||| (x >>> (64 - n % 64))) &&& (2 ^ 64 - 1)

/-- The 24 round constants of Keccak-f[1600] (FIPS 202), as decimal
64-bit values. -/
def keccakRC : List Nat :=
  [1, 32898, 9223372036854808714,
   9223372039002292224, 32907, 2147483649,
   9223372039002292353, 9223372036854808585, 138,
   136, 2147516425, 2147483658,
   2147516555, 9223372036854775947, 9223372036854808713,
   9223372036854808579, 9223372036854808578, 9223372036854775936,
   32778, 9223372039002259466, 9223372039002292353,
   9223372036854808704, 2147483649, 9223372039002292232]

/-- The rho rotation offset of the lane at flat index `x + 5 * y`. -/
def keccakRot : List Nat :=
  [0, 1, 62, 28, 27] ++ [36, 44, 6, 55, 20] ++ [3, 10, 43, 25, 39] ++
    [41, 45, 15, 21, 8] ++ [18, 2, 61, 56, 14]

/-- The lane of state `s` at coordinates `(x, y)` (flat index `x + 5 * y`). -/
def lane (s : List Nat) (x y : Nat) : Nat := s.getD (x + 5 * y) 0

/-- The theta step of a Keccak-f round. -/
def keccakTheta (s : List Nat) : List Nat :=
  let C := (List.range 5).map fun x =>
    lane s x 0 ^^^ lane s x 1 ^^^ lane s x 2 ^^^ lane s x 3 ^^^ lane s x 4
  let D := (List.range 5).map fun x =>
    C.getD ((x + 4) % 5) 0 ^^^ rotl64 (C.getD ((x + 1) % 5) 0) 1
  (List.range 25).map fun i => s.getD i 0 ^^^ D.getD (i % 5) 0

/-- The combined rho and pi steps of a Keccak-f round. -/
def keccakRhoPi (s : List Nat) : List Nat :=
  (List.range 25).map fun j =>
    let a := j % 5
    let b := j / 5
    let x := (a + 3 * b) % 5
    rotl64 (lane s x a) (keccakRot.getD (x + 5 * a) 0)

/-- The chi step of a Keccak-f round. -/
def keccakChi (s : List Nat) : List Nat :=
  (List.range 25).map fun j =>
    let x := j % 5
    let y := j / 5
    s.getD j 0 ^^^ (((2 ^ 64 - 1) ^^^ lane s ((x + 1) % 5) y) &&& lane s ((x + 2) % 5) y)

/-- One Keccak-f round with round constant `rc`. -/
def keccakRound (s : List Nat) (rc : Nat) : List Nat :=
  let t := keccakChi (keccakRhoPi (keccakTheta s))
  t.set 0 (t.getD 0 0 ^^^ rc)

/-- The full Keccak-f[1600] permutation (24 rounds). -/
def keccakF (s : List Nat) : List Nat := keccakRC.foldl keccakRound s

/-- Split a byte string into chunks of `n` bytes (`0 < n`), fuel-driven. -/
def chunksGo (n : Nat) : Nat → Bytes → List Bytes
  | 0, _ => []
  | _, [] => []
  | fuel + 1, l => l.take n :: chunksGo n fuel (l.drop n)

/-- Split a byte string into chunks of `n` bytes. -/
def chunks (n : Nat) (l : Bytes) : List Bytes := chunksGo n l.length l

/-- Keccak padding (pad10*1 with the 0x01 domain byte), rate 136 bytes. -/
def keccakPad (msg : Bytes) : Bytes :=
  let padlen := 136 - msg.length % 136
  if padlen = 1 then msg ++ [0x81]
  else msg ++ [0x01] ++ List.replicate (padlen - 2) 0 ++ [0x80]

/-- XOR a 136-byte block into the first 17 lanes of the state. -/
def absorbBlock (s : List Nat) (blk : Bytes) : List Nat :=
  let lanes := (chunks 8 blk).map (fun c => beNat c.reverse)
  (List.range 25).map fun i =>
    if i < 17 then s.getD i 0 ^^^ lanes.getD i 0 else s.getD i 0

/-- Keccak-256 of a byte string: absorb all padded blocks, squeeze 32 bytes. -/
def keccak256 (msg : Bytes) : Bytes :=
  let final := (chunks 136 (keccakPad msg)).foldl
    (fun st blk => keccakF (absorbBlock st blk)) (List.replicate 25 0)
  natToLE 8 (final.getD 0 0) ++ natToLE 8 (final.getD 1 0) ++
    natToLE 8 (final.getD 2 0) ++ natToLE 8 (final.getD 3 0)

/-! ### secp256k1 point decompression -/

/-- The secp256k1 base-field prime `2 ^ 256 - 2 ^ 32 - 977`. -/
def secpP : Nat := 2 ^ 256 - 2 ^ 32 - 977

/-- Fuel-driven binary modular exponentiation (square and multiply). -/
def powModGo : Nat → Nat → Nat → Nat → Nat
  | 0, _, _, m => 1 % m
  | fuel + 1, b, e, m =>
    if e = 0 then 1 % m
    else
      let h := powModGo fuel ((b * b) % m) (e / 2) m
      if e % 2 = 1 then (h * b) % m else h

/-- Modular exponentiation `b ^ e % m`. -/
def powMod (b e m : Nat) : Nat := powModGo (e + 1) b e m

/-- The candidate square root of `x ^ 3 + 7` modulo `secpP`, computed with
the `(p + 1) / 4` exponent (valid because `secpP % 4 = 3`). -/
def sqrtCand (x : Nat) : Nat :=
  powMod ((x * x * x + 7) % secpP) ((secpP + 1) / 4) secpP

/-- Whether `x ^ 3 + 7` actually has a square root modulo `secpP`, i.e.
whether the candidate root squares back to it. -/
def xOnCurve (x : Nat) : Bool :=
  (sqrtCand x * sqrtCand x) % secpP = (x * x * x + 7) % secpP

/-- Modelled from the spec: the library call
`eth_keys.keys.PublicKey.from_compressed_bytes(b).to_bytes()` used by the
scripts is not part of this repository; per the spec it decompresses a
33-byte key with leading byte 0x02/0x03 by solving the curve equation for
Y with the given parity, and fails (`none`, i.e. an exception in Python)
when the leading byte is wrong or X has no valid Y on the curve.  It
returns the 64-byte X‖Y encoding (the Python `to_bytes` output, which has
no 0x04 leading byte; the scripts nevertheless strip a leading 0x04 if
present). -/
def decompressPubkey (b : Bytes) : Option Bytes :=
  if b.length = 33 ∧ (b.headD 0 = 2 ∨ b.headD 0 = 3) then
    if xOnCurve (beNat (b.drop 1)) then
      some (b.drop 1 ++ natToBE 32
        (if sqrtCand (beNat (b.drop 1)) % 2 = b.headD 0 % 2
         then sqrtCand (beNat (b.drop 1))
         else secpP - sqrtCand (beNat (b.drop 1))))
    else none
  else none

/-! ### Address derivation scripts

Both `test_all_wallets.py` and `test_key_derivation.py` define a
`derive_address_from_public_key`; inputs are modelled as byte strings
(the scripts take hex strings, decoded at the boundary, so a hex length
of 66/128/130 characters is a byte length of 33/64/65).  The scripts
return strings; the three observably distinct shapes ("0x…" success,
"Invalid … length: …", "Error: …" from a caught exception) are modelled
as a three-constructor result type. -/

/-- The result of the Python derivation functions: a derived address
(`addr`), the "Invalid length" early return (`invalidLength`, carrying
the hex-character count the script reports), or the "Error: …" string
produced when the library raised (`error`). -/
inductive DeriveResult where
  | addr (a : Bytes)
  | invalidLength (n : Nat)
  | error
  deriving DecidableEq

/-- Strip a leading 0x04 byte if present (the scripts' "Remove the 0x04
prefix" step, applied to whatever buffer reached it). -/
def strip04 (u : Bytes) : Bytes := if u.headD 0 = 4 then u.drop 1 else u

/-- Keccak-256 then keep the last 20 bytes: the address-derivation core
(`hash_result = keccak(...)`; `address = hash_result[-20:]`). -/
def deriveAddress (pk : Bytes) : Bytes := lastBytes 20 (keccak256 pk)

namespace TestAllWallets

/-- Decidable equality for `Except` results, so concrete normalization
outcomes can be checked by evaluation. -/
instance {ε α : Type} [DecidableEq ε] [DecidableEq α] :
    DecidableEq (Except ε α) := fun x y =>
  match x, y with
  | .ok a, .ok b =>
    if h : a = b then isTrue (by rw [h])
    else isFalse (by intro hc; cases hc; exact h rfl)
  | .error e, .error f =>
    if h : e = f then isTrue (by rw [h])
    else isFalse (by intro hc; cases hc; exact h rfl)
  | .ok _, .error _ => isFalse (by intro hc; cases hc)
  | .error _, .ok _ => isFalse (by intro hc; cases hc)

/-- Failure mode of the uncompressed-bytes computation: an unaccepted
input length, or an exception from decompression. -/
inductive NormErr where
  | badLength (n : Nat)
  | decompFail
  deriving DecidableEq

/-- The `uncompressed_bytes` computed by the branches of
`derive_address_from_public_key` in `test_all_wallets.py` (length 33:
library decompression; length 64: prepend 0x04; length 65: as is). -/
def uncompressedBytesOf (b : Bytes) : Except NormErr Bytes :=
  if b.length = 33 then
    match decompressPubkey b with
    | some u => .ok u
    | none => .error .decompFail
  else if b.length = 64 then .ok (4 :: b)
  else if b.length = 65 then .ok b
  else .error (.badLength b.length)

/-- The normalized key the script hashes: `uncompressed_bytes` after the
strip-0x04 step. -/
def normalizeKey (b : Bytes) : Except NormErr Bytes :=
  (uncompressedBytesOf b).map strip04

/-- The function `derive_address_from_public_key` of
`test_all_wallets.py`: normalize, Keccak-256, keep the last 20 bytes. -/
def derive_address_from_public_key (b : Bytes) : DeriveResult :=
  match normalizeKey b with
  | .ok u => .addr (deriveAddress u)
  | .error .decompFail => .error
  | .error (.badLength n) => .invalidLength (2 * n)

end TestAllWallets

namespace TestKeyDerivation

/-- The function `derive_address_from_public_key` of
`test_key_derivation.py`: it accepts a 33-byte input only when the
`compressed` flag is set, accepts a 65-byte input always, and has no
64-byte branch. -/
def derive_address_from_public_key (compressed : Bool) (b : Bytes) : DeriveResult :=
  if compressed ∧ b.length = 33 then
    match decompressPubkey b with
    | some u => .addr (deriveAddress (strip04 u))
    | none => .error
  else if b.length = 65 then .addr (deriveAddress (strip04 b))
  else .invalidLength (2 * b.length)

end TestKeyDerivation

/-! ### Concrete vectors from the repository -/

/-- The compressed wallet public key from the scripts
(`032c6f…92f6df`). -/
def key33 : Bytes :=
  [0x03, 0x2c, 0x6f, 0x57, 0x53, 0x45, 0xba, 0xfa, 0x41, 0x22, 0x7d, 0x80,
   0x2a, 0xfa, 0xa2, 0x51, 0xf9, 0xfd, 0x1d, 0x56, 0x13, 0xa0, 0xf7, 0x29,
   0xb4, 0x6a, 0x20, 0x0a, 0xc9, 0x0a, 0x92, 0xf6, 0xdf]

/-- The 64-byte uncompressed form of `key33`. -/
def pk64 : Bytes :=
  [0x2c, 0x6f, 0x57, 0x53, 0x45, 0xba, 0xfa, 0x41, 0x22, 0x7d, 0x80, 0x2a,
   0xfa, 0xa2, 0x51, 0xf9, 0xfd, 0x1d, 0x56, 0x13, 0xa0, 0xf7, 0x29, 0xb4,
   0x6a, 0x20, 0x0a, 0xc9, 0x0a, 0x92, 0xf6, 0xdf, 0x02, 0x8c, 0x09, 0x87,
   0xe9, 0x1b, 0x87, 0xf0, 0x11, 0x14, 0x5a, 0xff, 0xfd, 0x9f, 0xeb, 0xa5,
   0x0e, 0xbc, 0xaa, 0x59, 0x8e, 0x6b, 0x66, 0x0e, 0xf4, 0x81, 0xa9, 0x55,
   0x7b, 0x1d, 0xed, 0xe1]

/-- The address `0x9fe13b041b6811b717b311fce887146972b20d6a` observed by
the repository for `key33`. -/
def addr20 : Bytes :=
  [0x9f, 0xe1, 0x3b, 0x04, 0x1b, 0x68, 0x11, 0xb7, 0x17, 0xb3, 0x11, 0xfc,
   0xe8, 0x87, 0x14, 0x69, 0x72, 0xb2, 0x0d, 0x6a]

/-! ### Signature parsing (spec-modelled) -/

/-- Error cases of the spec's `parseSignature`. -/
inductive SigError where
  | invalidLength (n : Nat)
  | invalidParity
  deriving DecidableEq

/-- A parsed signature: `r`, `s` and the normalized recovery parity. -/
structure ParsedSig where
  r : Nat
  s : Nat
  parity : Nat
  deriving DecidableEq

/-- Modelled from the spec: no `parseSignature` function exists in the
scripts (`verify_tangem_signature.py` slices the `v` byte out of the
signature and then ignores it); the spec's §4.3 contract is: split a
65-byte signature into r (bytes 0–31), s (bytes 32–63) and v (byte 64),
normalize `parity = v - 27` when `v ≥ 27` else `parity = v`, fail with
`InvalidParity` when the normalized value is not 0 or 1, and fail with
`InvalidLength` when the input is not exactly 65 bytes. -/
def parseSignature (b : Bytes) : Except SigError ParsedSig :=
  if b.length = 65 then
    let r := beNat (b.take 32)
    let s := beNat ((b.drop 32).take 32)
    let v := b.getD 64 0
    let parity := if 27 ≤ v then v - 27 else v
    if parity = 0 ∨ parity = 1 then .ok ⟨r, s, parity⟩
    else .error .invalidParity
  else .error (.invalidLength b.length)

/-! ### Recovery search (`verify_tangem_signature.py`) -/

/-- A named hash candidate, as in the script's `hash_candidates` dict
(insertion-ordered, modelled as a list). -/
structure Candidate where
  name : String
  digest : Bytes
  deriving DecidableEq

/-- One `(candidate, v)` trial of the inner loop: build the signature
with `recovery_id = v - 27`, attempt library recovery (`recover` models
`keys.Signature(vrs=...).recover_public_key_from_msg_hash`, with `none`
for a raised-and-caught exception), derive the recovered key's address
and keep it only when it equals the expected address.  The returned pair
is `(v, recovered address)`. -/
def tryParity (recover : Nat → Nat → Nat → Bytes → Option Bytes)
    (r s : Nat) (digest : Bytes) (expected : Bytes) (v : Nat) :
    Option (Nat × Bytes) :=
  match recover (v - 27) r s digest with
  | some pk =>
    let a := deriveAddress pk
    if a = expected then some (v, a) else none
  | none => none

/-- The nested candidate loop of `verify_signature_recovery`: for each
candidate in order, try `v = 27` then `v = 28`, returning on the first
trial whose derived address equals the expected address. -/
def searchCandidates (recover : Nat → Nat → Nat → Bytes → Option Bytes)
    (r s : Nat) (expected : Bytes) :
    List Candidate → Option (String × Nat × Bytes)
  | [] => none
  | c :: rest =>
    match tryParity recover r s c.digest expected 27 with
    | some (v, a) => some (c.name, v, a)
    | none =>
      match tryParity recover r s c.digest expected 28 with
      | some (v, a) => some (c.name, v, a)
      | none => searchCandidates recover r s expected rest

/-- The function `verify_signature_recovery` of
`verify_tangem_signature.py`: reject signatures that are not 65 bytes
(the script prints a message and returns `None`), slice out `r` and `s`
(the trailing `v` byte is sliced into `v_hex` but never used), and run
the candidate search.  A match returns `(name, v, recovered address)`;
exhaustion returns `None`. -/
def verify_signature_recovery (recover : Nat → Nat → Nat → Bytes → Option Bytes)
    (sig : Bytes) (candidates : List Candidate) (expected : Bytes) :
    Option (String × Nat × Bytes) :=
  if sig.length = 65 then
    searchCandidates recover (beNat (sig.take 32)) (beNat ((sig.drop 32).take 32))
      expected candidates
  else none

/-- The candidate-major, parity-minor order of trials of the search. -/
def trials : List Candidate → List (Candidate × Nat)
  | [] => []
  | c :: rest => (c, 27) :: (c, 28) :: trials rest

/-- The reported result of one trial, in the shape returned by
`verify_signature_recovery`. -/
def trialResult (recover : Nat → Nat → Nat → Bytes → Option Bytes)
    (r s : Nat) (expected : Bytes) (t : Candidate × Nat) :
    Option (String × Nat × Bytes) :=
  (tryParity recover r s t.1.digest expected t.2).map fun p => (t.1.name, p.1, p.2)

/-- A recovery stub that always fails (every trial raises). -/
def recoverNone : Nat → Nat → Nat → Bytes → Option Bytes := fun _ _ _ _ => none

/-- A recovery stub realizing the spec's search-order scenario: on
digest `[1]` (candidate A) only parity 1 recovers, on every other digest
(candidate B) both parities recover, always to the same key `pk64`. -/
def recoverDemo : Nat → Nat → Nat → Bytes → Option Bytes :=
  fun rid _ _ digest =>
    if digest = [1] then (if rid = 1 then some pk64 else none) else some pk64

/-- A 65-byte all-zero signature. -/
def sig65 : Bytes := List.replicate 65 0

/-! ### Point encodings and concrete counterexample inputs -/

/-- The compressed 33-byte encoding of the point `(x, y)`. -/
def compressEnc (x y : Nat) : Bytes :=
  (if y % 2 = 0 then 2 else 3) :: natToBE 32 x

/-- The raw 64-byte X‖Y encoding of the point `(x, y)`. -/
def rawEnc (x y : Nat) : Bytes := natToBE 32 x ++ natToBE 32 y

/-- The 65-byte 0x04-led uncompressed encoding of the point `(x, y)`. -/
def uncomp65 (x y : Nat) : Bytes := 4 :: rawEnc x y

/-- Membership of `(x, y)` in the secp256k1 curve, coordinates reduced. -/
def onCurvePt (x y : Nat) : Prop :=
  x < secpP ∧ y < secpP ∧ (y * y) % secpP = (x * x * x + 7) % secpP

/-- A 65-byte input whose leading byte is 5, not 4. -/
def bad65 : Bytes := 5 :: List.replicate 64 0

/-- The 64-byte encoding of `(0, 1)`, which is not on the curve. -/
def off64 : Bytes := List.replicate 63 0 ++ [1]

/-- A compressed-format 33-byte input with `X = 5`; `5 ^ 3 + 7 = 132` has
no square root modulo `secpP`. -/
def nonres33 : Bytes := 2 :: (List.replicate 31 0 ++ [5])

/-- The X coordinate of an on-curve point whose big-endian X encoding
begins with the byte 0x04. -/
def x04 : Nat :=
  0x0400000000000000000000000000000000000000000000000000000000000004

/-- The matching Y coordinate (even, hence compressed leading byte 2). -/
def y04 : Nat :=
  0x64cf321098a67cb15bbbb88b6f6f0a44916d3b5ad574c25ed48399ecfa93dd86

/-- The X coordinate of the repository's wallet key `key33`. -/
def xW : Nat :=
  0x2c6f575345bafa41227d802afaa251f9fd1d5613a0f729b46a200ac90a92f6df

/-- The Y coordinate of the repository's wallet key `key33`. -/
def yW : Nat :=
  0x028c0987e91b87f011145afffd9feba50ebcaa598e6b660ef481a9557b1dede1

/-! ### Primality certificates (Pratt chain for the secp256k1 prime) -/

/-- The largest prime factor of `secpP - 1`. -/
def bigQ : Nat :=
  205115282021455665897114700593932402728804164701536103180137503955397371

/-- A 128-bit prime factor of `bigQ - 1`. -/
def primeF2 : Nat := 255515944373312847190720520512484175977

/-- A 77-bit prime factor of `bigQ - 1`. -/
def primeF1 : Nat := 132896956044521568488119

/-- A 75-bit prime factor of `primeF1 - 1`. -/
def primeG1 : Nat := 22149492674086928081353

/-- A 58-bit prime factor of `primeG1 - 1`. -/
def primeG2 : Nat := 173378833005251801

/-! ### Theorems -/

theorem powModGo_eq :
    ∀ (fuel b e m : Nat), e < 2 ^ fuel → powModGo fuel b e m = b ^ e % m := by
  intro fuel
  induction fuel with
  | zero =>
    intro b e m h
    have : e = 0 := by simpa using Nat.lt_one_iff.mp (by simpa using h)
    subst this
    simp [powModGo]
  | succ f ih =>
    intro b e m h
    by_cases he : e = 0
    · subst he; simp [powModGo]
    · have hdiv : e / 2 < 2 ^ f := by
        have h2 : (0 : Nat) < 2 := by norm_num
        rw [Nat.div_lt_iff_lt_mul h2]
        calc e < 2 ^ (f + 1) := h
        _ = 2 ^ f * 2 := by rw [Nat.pow_succ]
      have hrec := ih ((b * b) % m) (e / 2) m hdiv
      have hpow : ((b * b) % m) ^ (e / 2) % m = (b * b) ^ (e / 2) % m :=
        (Nat.pow_mod (b * b) (e / 2) m).symm
      rcases Nat.mod_two_eq_zero_or_one e with hpar | hpar
      · have hsplit : b ^ e = (b * b) ^ (e / 2) := by
          conv_lhs => rw [← Nat.div_add_mod e 2]
          rw [hpar, Nat.add_zero, pow_mul, pow_two]
        have hstep : powModGo (f + 1) b e m = (b * b % m) ^ (e / 2) % m := by
          simp [powModGo, he, hpar, hrec]
        rw [hstep, hpow, ← hsplit]
      · have hsplit : b ^ e = (b * b) ^ (e / 2) * b := by
          conv_lhs => rw [← Nat.div_add_mod e 2]
          rw [hpar, pow_succ, pow_mul, pow_two]
        have hstep : powModGo (f + 1) b e m =
            (powModGo f (b * b % m) (e / 2) m * b) % m := by
          simp [powModGo, he, hpar]
        rw [hstep, hrec, hpow, Nat.mod_mul_mod, ← hsplit]

theorem powMod_eq (b e m : Nat) : powMod b e m = b ^ e % m :=
  powModGo_eq (e + 1) b e m
    (Nat.lt_of_lt_of_le (Nat.lt_two_pow e) (Nat.pow_le_pow_right (by norm_num) (by omega)))

theorem zmodCast_eq_iff_of_lt {n x y : Nat} (hx : x < n) (hy : y < n) :
    ((x : ZMod n) = (y : ZMod n)) ↔ x = y := by
  rw [ZMod.natCast_eq_natCast_iff', Nat.mod_eq_of_lt hx, Nat.mod_eq_of_lt hy]

theorem powMod_one_iff (n a e : Nat) (h2 : 2 ≤ n) :
    ((a : ZMod n) ^ e = 1) ↔ powMod a e n = 1 % n := by
  have h0 : 0 < n := by omega
  have hcast : (a : ZMod n) ^ e = ((a ^ e % n : Nat) : ZMod n) := by
    rw [ZMod.natCast_mod, Nat.cast_pow]
  have hone : (1 : ZMod n) = ((1 % n : Nat) : ZMod n) := by
    rw [ZMod.natCast_mod, Nat.cast_one]
  rw [hcast, hone, zmodCast_eq_iff_of_lt (Nat.mod_lt _ h0) (Nat.mod_lt _ h0), powMod_eq]

theorem lucas_nat (n a : Nat) (h2 : 2 ≤ n) (F : List Nat)
    (hprod : n - 1 = F.prod) (hF : ∀ q ∈ F, q.Prime)
    (ha : powMod a (n - 1) n = 1 % n)
    (hd : ∀ q ∈ F, powMod a ((n - 1) / q) n ≠ 1 % n) : n.Prime := by
  apply lucas_primality n (a : ZMod n)
  · exact (powMod_one_iff n a (n - 1) h2).mpr ha
  · intro q hq hqdvd
    have hqprod : q ∣ F.prod := hprod ▸ hqdvd
    obtain ⟨r, hrF, hqr⟩ := (hq.prime.dvd_prod_iff).mp hqprod
    have hqeq : q = r := (Nat.prime_dvd_prime_iff_eq hq (hF r hrF)).mp hqr
    subst hqeq
    exact fun hcon => hd q hrF ((powMod_one_iff n a ((n - 1) / q) h2).mp hcon)

theorem p20113_prime : Nat.Prime 20113 := by norm_num

theorem p1206781_prime : Nat.Prime 1206781 := by
  apply lucas_nat 1206781 10 (by norm_num) [2, 2, 3, 5, 20113]
  · decide
  · intro q hq
    simp only [List.mem_cons, List.not_mem_nil, or_false] at hq
    rcases hq with rfl | rfl | rfl | rfl | rfl
    · norm_num
    · norm_num
    · norm_num
    · norm_num
    · exact p20113_prime
  · decide
  · decide

theorem p7240687_prime : Nat.Prime 7240687 := by
  apply lucas_nat 7240687 3 (by norm_num) [2, 3, 1206781]
  · decide
  · intro q hq
    simp only [List.mem_cons, List.not_mem_nil, or_false] at hq
    rcases hq with rfl | rfl | rfl
    · norm_num
    · norm_num
    · exact p1206781_prime
  · decide
  · decide

theorem p13331831_prime : Nat.Prime 13331831 := by
  apply lucas_nat 13331831 13 (by norm_num) [2, 5, 971, 1373]
  · decide
  · intro q hq
    simp only [List.mem_cons, List.not_mem_nil, or_false] at hq
    rcases hq with rfl | rfl | rfl | rfl <;> norm_num
  · decide
  · decide

theorem p107590001_prime : Nat.Prime 107590001 := by
  apply lucas_nat 107590001 3 (by norm_num)
    [2, 2, 2, 2, 5, 5, 5, 5, 7, 29, 53]
  · decide
  · intro q hq
    simp only [List.mem_cons, List.not_mem_nil, or_false] at hq
    rcases hq with rfl | rfl | rfl | rfl | rfl | rfl | rfl | rfl | rfl |
      rfl | rfl <;> norm_num
  · decide
  · decide

theorem primeG2_prime : Nat.Prime primeG2 := by
  apply lucas_nat primeG2 6 (by norm_num [primeG2])
    [2, 2, 2, 5, 5, 2621, 24809, 13331831]
  · decide
  · intro q hq
    simp only [List.mem_cons, List.not_mem_nil, or_false] at hq
    rcases hq with rfl | rfl | rfl | rfl | rfl | rfl | rfl | rfl
    · norm_num
    · norm_num
    · norm_num
    · norm_num
    · norm_num
    · norm_num
    · norm_num
    · exact p13331831_prime
  · decide
  · decide

theorem primeG1_prime : Nat.Prime primeG1 := by
  apply lucas_nat primeG1 5 (by norm_num [primeG1])
    [2, 2, 2, 3, 5323, primeG2]
  · decide
  · intro q hq
    simp only [List.mem_cons, List.not_mem_nil, or_false] at hq
    rcases hq with rfl | rfl | rfl | rfl | rfl | rfl
    · norm_num
    · norm_num
    · norm_num
    · norm_num
    · norm_num
    · exact primeG2_prime
  · decide
  · decide

theorem primeF1_prime : Nat.Prime primeF1 := by
  apply lucas_nat primeF1 6 (by norm_num [primeF1]) [2, 3, primeG1]
  · decide
  · intro q hq
    simp only [List.mem_cons, List.not_mem_nil, or_false] at hq
    rcases hq with rfl | rfl | rfl
    · norm_num
    · norm_num
    · exact primeG1_prime
  · decide
  · decide

theorem primeF2_prime : Nat.Prime primeF2 := by
  apply lucas_nat primeF2 3 (by norm_num [primeF2])
    [2, 2, 2, 7, 7, 11, 1627, 2657, 4423, 41201, 96557, 7240687, 107590001]
  · decide
  · intro q hq
    simp only [List.mem_cons, List.not_mem_nil, or_false] at hq
    rcases hq with rfl | rfl | rfl | rfl | rfl | rfl | rfl | rfl | rfl | rfl |
      rfl | rfl | rfl
    · norm_num
    · norm_num
    · norm_num
    · norm_num
    · norm_num
    · norm_num
    · norm_num
    · norm_num
    · norm_num
    · norm_num
    · norm_num
    · exact p7240687_prime
    · exact p107590001_prime
  · decide
  · decide

theorem bigQ_prime : Nat.Prime bigQ := by
  apply lucas_nat bigQ 10 (by norm_num [bigQ])
    [2, 3, 5, 29, 29, 31, 7723, primeF1, primeF2]
  · decide
  · intro q hq
    simp only [List.mem_cons, List.not_mem_nil, or_false] at hq
    rcases hq with rfl | rfl | rfl | rfl | rfl | rfl | rfl | rfl | rfl
    · norm_num
    · norm_num
    · norm_num
    · norm_num
    · norm_num
    · norm_num
    · norm_num
    · exact primeF1_prime
    · exact primeF2_prime
  · decide
  · decide

theorem secpP_prime : Nat.Prime secpP := by
  apply lucas_nat secpP 3 (by norm_num [secpP]) [2, 3, 7, 13441, bigQ]
  · decide
  · intro q hq
    simp only [List.mem_cons, List.not_mem_nil, or_false] at hq
    rcases hq with rfl | rfl | rfl | rfl | rfl
    · norm_num
    · norm_num
    · norm_num
    · norm_num
    · exact bigQ_prime
  · decide
  · decide

/-- The embedded Keccak-256 agrees with the standard empty-string
digest `c5d246…85a470`. -/
theorem keccak256_empty_vector : keccak256 [] =
    [0xc5, 0xd2, 0x46, 0x01, 0x86, 0xf7, 0x23, 0x3c, 0x92, 0x7e, 0x7d, 0xb2,
     0xdc, 0xc7, 0x03, 0xc0, 0xe5, 0x00, 0xb6, 0x53, 0xca, 0x82, 0x27, 0x3b,
     0x7b, 0xfa, 0xd8, 0x04, 0x5d, 0x85, 0xa4, 0x70] := by
  decide

/-! ### Byte-string lemmas -/

theorem natToLE_length (k : Nat) : ∀ n, (natToLE k n).length = k := by
  induction k with
  | zero => intro n; rfl
  | succ k ih => intro n; simp [natToLE, ih]

theorem natToBE_length (k n : Nat) : (natToBE k n).length = k := by
  simp [natToBE, natToLE_length]

theorem keccak256_length (m : Bytes) : (keccak256 m).length = 32 := by
  simp [keccak256, natToLE_length]

theorem beNat_append_single (l : Bytes) (b : Nat) :
    beNat (l ++ [b]) = beNat l * 256 + b := by
  simp [beNat, List.foldl_append]

theorem natToBE_succ (k n : Nat) :
    natToBE (k + 1) n = natToBE k (n / 256) ++ [n % 256] := by
  simp [natToBE, natToLE]

theorem beNat_natToBE (k : Nat) : ∀ n, n < 256 ^ k → beNat (natToBE k n) = n := by
  induction k with
  | zero =>
    intro n h
    have : n = 0 := by simpa using Nat.lt_one_iff.mp (by simpa using h)
    subst this; rfl
  | succ k ih =>
    intro n h
    have hlt : n / 256 < 256 ^ k := by
      rw [Nat.div_lt_iff_lt_mul (by norm_num : (0 : Nat) < 256)]
      calc n < 256 ^ (k + 1) := h
      _ = 256 ^ k * 256 := by rw [Nat.pow_succ]
    rw [natToBE_succ, beNat_append_single, ih (n / 256) hlt]
    omega

theorem headD_append_of_ne_nil {l l' : Bytes} (h : l ≠ []) :
    (l ++ l').headD 0 = l.headD 0 := by
  cases l with
  | nil => exact absurd rfl h
  | cons a t => rfl

theorem natToBE_head (k : Nat) :
    ∀ n, (natToBE (k + 1) n).headD 0 = n / 256 ^ k % 256 := by
  induction k with
  | zero => intro n; simp [natToBE, natToLE]
  | succ k ih =>
    intro n
    have hne : natToBE (k + 1) (n / 256) ≠ [] := by
      intro hcon
      have hl := natToBE_length (k + 1) (n / 256)
      rw [hcon] at hl
      simp at hl
    rw [natToBE_succ, headD_append_of_ne_nil hne, ih (n / 256),
      Nat.div_div_eq_div_mul]
    rw [pow_succ']

/-! ### Square-root correctness over the prime field -/

theorem sqrtCand_spec (x y : Nat) (hy : y < secpP)
    (hc : (y * y) % secpP = (x * x * x + 7) % secpP) :
    sqrtCand x = y ∨ sqrtCand x = secpP - y := by
  haveI : Fact (Nat.Prime secpP) := ⟨secpP_prime⟩
  have hp0 : 0 < secpP := by norm_num [secpP]
  have hrlt : sqrtCand x < secpP := by
    rw [sqrtCand, powMod_eq]; exact Nat.mod_lt _ hp0
  have hcast : ((sqrtCand x : Nat) : ZMod secpP) =
      ((y : ZMod secpP) * (y : ZMod secpP)) ^ ((secpP + 1) / 4) := by
    rw [sqrtCand, powMod_eq, ZMod.natCast_mod, Nat.cast_pow, ZMod.natCast_mod]
    have h1 : ((x * x * x + 7 : Nat) : ZMod secpP) =
        ((y * y : Nat) : ZMod secpP) := by
      rw [ZMod.natCast_eq_natCast_iff']; exact hc.symm
    rw [h1, Nat.cast_mul]
  by_cases hy0 : y = 0
  · subst hy0
    left
    have hzero : ((sqrtCand x : Nat) : ZMod secpP) = 0 := by
      rw [hcast]
      have : ((0 : Nat) : ZMod secpP) = 0 := by norm_num
      rw [this, mul_zero, zero_pow (by norm_num [secpP])]
    have := congrArg ZMod.val hzero
    rwa [ZMod.val_cast_of_lt hrlt, ZMod.val_zero] at this
  · have hyne : ((y : Nat) : ZMod secpP) ≠ 0 := by
      intro h0
      apply hy0
      have := congrArg ZMod.val h0
      rwa [ZMod.val_cast_of_lt hy, ZMod.val_zero] at this
    have hk2 : (secpP - 1) / 2 * 2 = secpP - 1 := by norm_num [secpP]
    have hsq : ((y : ZMod secpP) ^ ((secpP - 1) / 2)) ^ 2 = 1 := by
      rw [← pow_mul, hk2]
      exact ZMod.pow_card_sub_one_eq_one hyne
    have hE : 2 * ((secpP + 1) / 4) = (secpP - 1) / 2 + 1 := by norm_num [secpP]
    have hpow : ((sqrtCand x : Nat) : ZMod secpP) =
        (y : ZMod secpP) ^ ((secpP - 1) / 2) * (y : ZMod secpP) := by
      rw [hcast, ← pow_two, ← pow_mul, hE, pow_succ]
    rcases sq_eq_one_iff.mp hsq with h1 | h1
    · left
      have : ((sqrtCand x : Nat) : ZMod secpP) = ((y : Nat) : ZMod secpP) := by
        rw [hpow, h1, one_mul]
      have hv := congrArg ZMod.val this
      rwa [ZMod.val_cast_of_lt hrlt, ZMod.val_cast_of_lt hy] at hv
    · right
      have hneg : ((sqrtCand x : Nat) : ZMod secpP) = -((y : Nat) : ZMod secpP) := by
        rw [hpow, h1, neg_one_mul]
      have hv := congrArg ZMod.val hneg
      rw [ZMod.val_cast_of_lt hrlt, ZMod.neg_val] at hv
      rw [if_neg hyne, ZMod.val_cast_of_lt hy] at hv
      exact hv

/-! ### Claim theorems -/

/-- C1: for every public key byte string the derivation core returns
exactly the low-order (last) 20 bytes — bytes 12 to 31 — of the 32-byte
Keccak-256 digest, and at the repository's own 64-byte key the first 20
bytes of the digest differ from the last 20, so the rule is not the
first-20-byte truncation. -/
theorem deriveAddress_is_low20 :
    (∀ pk : Bytes, deriveAddress pk = (keccak256 pk).drop 12
      ∧ (keccak256 pk).length = 32)
    ∧ deriveAddress pk64 ≠ (keccak256 pk64).take 20 := by
  constructor
  · intro pk
    refine ⟨?_, keccak256_length pk⟩
    rw [deriveAddress, lastBytes, keccak256_length]
  · decide

/-- C3: the compressed wallet key `032c6f…92f6df` decompresses to the
64-byte key `pk64` and both scripts derive from it exactly the address
`0x9fe13b041b6811b717b311fce887146972b20d6a`. -/
theorem wallet_key_address_vector :
    decompressPubkey key33 = some pk64
    ∧ TestKeyDerivation.derive_address_from_public_key true key33 =
        .addr addr20
    ∧ TestAllWallets.derive_address_from_public_key key33 = .addr addr20 := by
  decide

/-- C10: on any 33-byte compressed input that decompresses successfully,
the derivation functions of `test_key_derivation.py` (with
`compressed=True`) and `test_all_wallets.py` return identical results. -/
theorem scripts_agree_on_compressed (b : Bytes) (h33 : b.length = 33)
    (hdec : (decompressPubkey b).isSome = true) :
    TestKeyDerivation.derive_address_from_public_key true b =
      TestAllWallets.derive_address_from_public_key b := by
  simp only [TestKeyDerivation.derive_address_from_public_key,
    TestAllWallets.derive_address_from_public_key,
    TestAllWallets.normalizeKey, TestAllWallets.uncompressedBytesOf, h33,
    if_pos, true_and, if_true]
  cases hd : decompressPubkey b with
  | some u => simp [hd, Except.map]
  | none => simp [hd, Except.map]

/-- C10 witness: the two scripts agree at the repository's wallet key. -/
theorem scripts_agree_on_compressed_witness :
    TestKeyDerivation.derive_address_from_public_key true key33 =
      TestAllWallets.derive_address_from_public_key key33 :=
  scripts_agree_on_compressed key33 (by decide) (by decide)

instance (x y : Nat) : Decidable (onCurvePt x y) := by
  unfold onCurvePt
  infer_instance

/-! #### Helper lemmas for the branch structure of the scripts -/

theorem strip04_cons4 (l : Bytes) : strip04 (4 :: l) = l := by
  simp [strip04]

theorem strip04_head4 {l : Bytes} (h : l.headD 0 = 4) : strip04 l = l.drop 1 := by
  unfold strip04
  rw [if_pos h]

theorem strip04_head_ne {l : Bytes} (h : l.headD 0 ≠ 4) : strip04 l = l := by
  unfold strip04
  rw [if_neg h]

theorem derive_aw_33 (b : Bytes) (h : b.length = 33) :
    TestAllWallets.derive_address_from_public_key b =
      (match decompressPubkey b with
       | some u => .addr (deriveAddress (strip04 u))
       | none => .error) := by
  unfold TestAllWallets.derive_address_from_public_key
    TestAllWallets.normalizeKey TestAllWallets.uncompressedBytesOf
  rw [if_pos h]
  cases hd : decompressPubkey b <;> simp [Except.map]

theorem derive_aw_64 (b : Bytes) (h : b.length = 64) :
    TestAllWallets.derive_address_from_public_key b =
      .addr (deriveAddress b) := by
  unfold TestAllWallets.derive_address_from_public_key
    TestAllWallets.normalizeKey TestAllWallets.uncompressedBytesOf
  rw [if_neg (by omega), if_pos h]
  simp [Except.map, strip04_cons4]

theorem derive_aw_65 (b : Bytes) (h : b.length = 65) :
    TestAllWallets.derive_address_from_public_key b =
      .addr (deriveAddress (strip04 b)) := by
  unfold TestAllWallets.derive_address_from_public_key
    TestAllWallets.normalizeKey TestAllWallets.uncompressedBytesOf
  rw [if_neg (by omega), if_neg (by omega), if_pos h]
  simp [Except.map]

theorem derive_aw_badlen (b : Bytes) (h33 : b.length ≠ 33)
    (h64 : b.length ≠ 64) (h65 : b.length ≠ 65) :
    TestAllWallets.derive_address_from_public_key b =
      .invalidLength (2 * b.length) := by
  unfold TestAllWallets.derive_address_from_public_key
    TestAllWallets.normalizeKey TestAllWallets.uncompressedBytesOf
  rw [if_neg h33, if_neg h64, if_neg h65]
  simp [Except.map]

theorem decompress_none_of_not_on_curve {b : Bytes} (h : b.length = 33)
    (hh : b.headD 0 = 2 ∨ b.headD 0 = 3)
    (hcurve : xOnCurve (beNat (b.drop 1)) = false) :
    decompressPubkey b = none := by
  have hcurve2 : xOnCurve (beNat b.tail) = false := by
    rw [← List.drop_one]; exact hcurve
  unfold decompressPubkey
  rw [if_pos ⟨h, hh⟩, if_neg (by simp [hcurve, hcurve2])]

/-- C5 counterexample: the 65-byte input `0x05 ‖ 0^64`, whose leading
byte is 5 and not 4, is not rejected with an encoding error: the script
hashes all 65 bytes as they are and returns an address. -/
theorem len65_bad_lead_not_rejected :
    TestAllWallets.derive_address_from_public_key bad65 =
      .addr [0xbf, 0x8f, 0xf1, 0xa7, 0xbd, 0xdd, 0x6e, 0x75, 0x54, 0x56,
             0xa7, 0xdc, 0x31, 0xfe, 0xa3, 0xcb, 0xc3, 0xe8, 0x1b, 0xc1] := by
  decide

/-- C5 amended: a 65-byte input with leading byte 0x04 has the prefix
stripped and is processed exactly as the remaining 64-byte input; a
65-byte input with any other leading byte is NOT rejected — the script
hashes the full 65-byte buffer and returns an address. -/
theorem len65_behaviour (b : Bytes) (h : b.length = 65) :
    (b.headD 0 = 4 →
      TestAllWallets.derive_address_from_public_key b =
        TestAllWallets.derive_address_from_public_key (b.drop 1)
      ∧ TestAllWallets.derive_address_from_public_key b =
          .addr (deriveAddress (b.drop 1)))
    ∧ (b.headD 0 ≠ 4 →
      TestAllWallets.derive_address_from_public_key b =
        .addr (deriveAddress b)) := by
  constructor
  · intro h4
    have hb : TestAllWallets.derive_address_from_public_key b =
        .addr (deriveAddress (b.drop 1)) := by
      rw [derive_aw_65 b h, strip04_head4 h4]
    have hdrop : (b.drop 1).length = 64 := by simp [h]
    have hb2 : TestAllWallets.derive_address_from_public_key (b.drop 1) =
        .addr (deriveAddress (b.drop 1)) := derive_aw_64 (b.drop 1) hdrop
    exact ⟨hb.trans hb2.symm, hb⟩
  · intro h4
    rw [derive_aw_65 b h, strip04_head_ne h4]

/-- C5 witness: the amended behaviour at the concrete inputs
`0x04 ‖ 0^64` (prefix stripped) and `bad65` (hashed as is). -/
theorem len65_behaviour_witness :
    (TestAllWallets.derive_address_from_public_key (4 :: List.replicate 64 0) =
      TestAllWallets.derive_address_from_public_key
        ((4 :: List.replicate 64 0).drop 1))
    ∧ TestAllWallets.derive_address_from_public_key bad65 =
        .addr (deriveAddress bad65) :=
  ⟨((len65_behaviour (4 :: List.replicate 64 0) (by decide)).1 (by decide)).1,
   (len65_behaviour bad65 (by decide)).2 (by decide)⟩

/-- C6 counterexample: `off64` is the raw 64-byte encoding of the point
`(0, 1)`, which does not lie on the curve, yet the script does not fail:
it hashes the buffer and returns an address, so curve-membership
validation is skipped on the 64-byte path. -/
theorem off_curve64_not_rejected :
    off64 = rawEnc 0 1
    ∧ ¬ onCurvePt 0 1
    ∧ TestAllWallets.derive_address_from_public_key off64 =
        .addr [0x7f, 0x79, 0x15, 0x57, 0x3c, 0x7e, 0x97, 0xb4, 0x7e, 0xfa,
               0x54, 0x6f, 0x5f, 0x6e, 0x32, 0x30, 0x26, 0x3b, 0xcb, 0x49] := by
  refine ⟨by decide, by decide, by decide⟩

/-- C6 amended: a 33-byte compressed input whose X has no square root
modulo p fails (library exception, reported as an error); a 10-byte
input fails with the invalid-length report (20 hex characters); but a
64-byte input is NEVER validated for curve membership — any 64-byte
buffer yields an address. -/
theorem normalize_validation_behaviour :
    (∀ b : Bytes, b.length = 33 → (b.headD 0 = 2 ∨ b.headD 0 = 3) →
      xOnCurve (beNat (b.drop 1)) = false →
      TestAllWallets.derive_address_from_public_key b = .error)
    ∧ (∀ b : Bytes, b.length = 64 →
      TestAllWallets.derive_address_from_public_key b =
        .addr (deriveAddress b))
    ∧ (∀ b : Bytes, b.length = 10 →
      TestAllWallets.derive_address_from_public_key b = .invalidLength 20) := by
  refine ⟨?_, ?_, ?_⟩
  · intro b hl hh hcurve
    rw [derive_aw_33 b hl, decompress_none_of_not_on_curve hl hh hcurve]
  · intro b hl
    exact derive_aw_64 b hl
  · intro b hl
    rw [derive_aw_badlen b (by omega) (by omega) (by omega), hl]

/-- C6 witness: the amended behaviour at the concrete inputs `nonres33`
(X = 5, no square root), `off64` (64 bytes, accepted without curve
check), and a 10-byte zero buffer (length error). -/
theorem normalize_validation_witness :
    TestAllWallets.derive_address_from_public_key nonres33 = .error
    ∧ TestAllWallets.derive_address_from_public_key off64 =
        .addr (deriveAddress off64)
    ∧ TestAllWallets.derive_address_from_public_key (List.replicate 10 0) =
        .invalidLength 20 :=
  ⟨normalize_validation_behaviour.1 nonres33 (by decide) (by decide) (by decide),
   normalize_validation_behaviour.2.1 off64 (by decide),
   normalize_validation_behaviour.2.2 (List.replicate 10 0) (by decide)⟩

/-- C7 (spec-modelled): `parseSignature` normalizes v = 27 and v = 0 to
parity 0 and v = 28 and v = 1 to parity 1, and fails with
`InvalidParity` for every v whose normalized value
`if 27 ≤ v then v - 27 else v` is neither 0 nor 1, such as v = 29. -/
theorem parseSignature_parity (rs : Bytes) (h : rs.length = 64) :
    (parseSignature (rs ++ [27]) =
      .ok ⟨beNat (rs.take 32), beNat ((rs.drop 32).take 32), 0⟩)
    ∧ (parseSignature (rs ++ [0]) =
      .ok ⟨beNat (rs.take 32), beNat ((rs.drop 32).take 32), 0⟩)
    ∧ (parseSignature (rs ++ [28]) =
      .ok ⟨beNat (rs.take 32), beNat ((rs.drop 32).take 32), 1⟩)
    ∧ (parseSignature (rs ++ [1]) =
      .ok ⟨beNat (rs.take 32), beNat ((rs.drop 32).take 32), 1⟩)
    ∧ (∀ v : Nat, (if 27 ≤ v then v - 27 else v) ≠ 0 →
        (if 27 ≤ v then v - 27 else v) ≠ 1 →
        parseSignature (rs ++ [v]) = .error .invalidParity) := by
  have hlen : ∀ v : Nat, (rs ++ [v]).length = 65 := by
    intro v; simp [h]
  have htake : ∀ v : Nat, (rs ++ [v]).take 32 = rs.take 32 := by
    intro v; exact List.take_append_of_le_length (by omega)
  have hdrop : ∀ v : Nat,
      ((rs ++ [v]).drop 32).take 32 = (rs.drop 32).take 32 := by
    intro v
    rw [List.drop_append_of_le_length (by omega)]
    exact List.take_append_of_le_length (by simp [h])
  have hv : ∀ v : Nat, (rs ++ [v]).getD 64 0 = v := by
    intro v
    rw [List.getD_append_right _ _ _ _ (by omega), h]
    norm_num
  have key : ∀ v : Nat, parseSignature (rs ++ [v]) =
      (if (if 27 ≤ v then v - 27 else v) = 0 ∨
          (if 27 ≤ v then v - 27 else v) = 1
       then .ok ⟨beNat (rs.take 32), beNat ((rs.drop 32).take 32),
                 if 27 ≤ v then v - 27 else v⟩
       else .error .invalidParity) := by
    intro v
    unfold parseSignature
    rw [if_pos (hlen v), htake v, hdrop v, hv v]
  refine ⟨?_, ?_, ?_, ?_, ?_⟩
  · rw [key 27]; norm_num
  · rw [key 0]; norm_num
  · rw [key 28]; norm_num
  · rw [key 1]; norm_num
  · intro v h0 h1
    rw [key v, if_neg (by tauto)]

/-- C7 witness: the normalization at the all-zero r‖s body with v = 27
(parity 0) and v = 29 (invalid). -/
theorem parseSignature_parity_witness :
    (parseSignature (List.replicate 64 0 ++ [27]) =
      .ok ⟨beNat ((List.replicate 64 0).take 32),
           beNat (((List.replicate 64 0).drop 32).take 32), 0⟩)
    ∧ parseSignature (List.replicate 64 0 ++ [29]) =
        .error .invalidParity :=
  ⟨(parseSignature_parity (List.replicate 64 0) (by decide)).1,
   (parseSignature_parity (List.replicate 64 0) (by decide)).2.2.2.2 29
     (by decide) (by decide)⟩

/-! #### Helper lemmas for the recovery search -/

theorem findSome?_none {α β : Type} (f : α → Option β) :
    ∀ l : List α, (∀ a ∈ l, f a = none) → l.findSome? f = none := by
  intro l
  induction l with
  | nil => intro _; rfl
  | cons a t ih =>
    intro h
    have ha := h a (List.mem_cons_self a t)
    have ht := ih fun x hx => h x (List.mem_cons_of_mem a hx)
    simp [List.findSome?, ha, ht]

theorem searchCandidates_eq_findSome
    (recover : Nat → Nat → Nat → Bytes → Option Bytes)
    (r s : Nat) (expected : Bytes) :
    ∀ cs : List Candidate,
      searchCandidates recover r s expected cs =
        (trials cs).findSome? (trialResult recover r s expected) := by
  intro cs
  induction cs with
  | nil => rfl
  | cons c rest ih =>
    simp only [searchCandidates, trials, List.findSome?]
    cases h27 : tryParity recover r s c.digest expected 27 with
    | some p =>
      cases p with
      | mk v a => simp [trialResult, h27]
    | none =>
      cases h28 : tryParity recover r s c.digest expected 28 with
      | some p =>
        cases p with
        | mk v a => simp [trialResult, h27, h28]
      | none => simp [trialResult, h27, h28, ih]

/-- C2: with a 65-byte signature the search result is exactly the first
hit of the flattened candidate-major (outer), parity-27-then-28 (inner)
trial order, so whenever an earlier-ordered trial matches, no
later-ordered trial's result is ever returned. -/
theorem search_is_first_match
    (recover : Nat → Nat → Nat → Bytes → Option Bytes) (sig : Bytes)
    (cs : List Candidate) (expected : Bytes) (h : sig.length = 65) :
    verify_signature_recovery recover sig cs expected =
      (trials cs).findSome?
        (trialResult recover (beNat (sig.take 32))
          (beNat ((sig.drop 32).take 32)) expected) := by
  unfold verify_signature_recovery
  rw [if_pos h, searchCandidates_eq_findSome]

/-- C2 witness: the first-match characterization at the spec's scenario
(candidate A matches only at parity 1, candidate B at both). -/
theorem search_is_first_match_witness :
    verify_signature_recovery recoverDemo sig65
      [⟨"A", [1]⟩, ⟨"B", [2]⟩] addr20 =
      (trials [⟨"A", [1]⟩, ⟨"B", [2]⟩]).findSome?
        (trialResult recoverDemo (beNat (sig65.take 32))
          (beNat ((sig65.drop 32).take 32)) addr20) :=
  search_is_first_match recoverDemo sig65 [⟨"A", [1]⟩, ⟨"B", [2]⟩] addr20
    (by decide)

example :
    verify_signature_recovery recoverDemo sig65
      [⟨"A", [1]⟩, ⟨"B", [2]⟩] addr20 = some ("A", 28, addr20) := by
  decide

/-- C4: a trial on which recovery fails or the address mismatches never
aborts the search (the whole result is that of the remaining trials);
when every trial fails or mismatches the result is `none`, an ordinary
value of the same type as a success; and a signature of the wrong length
also yields `none` — the function is total and never propagates an
error. -/
theorem search_failure_handling :
    (∀ (recover : Nat → Nat → Nat → Bytes → Option Bytes) (r s : Nat)
        (expected : Bytes) (c : Candidate) (rest : List Candidate),
      tryParity recover r s c.digest expected 27 = none →
      tryParity recover r s c.digest expected 28 = none →
      searchCandidates recover r s expected (c :: rest) =
        searchCandidates recover r s expected rest)
    ∧ (∀ (recover : Nat → Nat → Nat → Bytes → Option Bytes) (sig : Bytes)
        (cs : List Candidate) (expected : Bytes), sig.length = 65 →
      (∀ t ∈ trials cs,
        trialResult recover (beNat (sig.take 32))
          (beNat ((sig.drop 32).take 32)) expected t = none) →
      verify_signature_recovery recover sig cs expected = none)
    ∧ (∀ (recover : Nat → Nat → Nat → Bytes → Option Bytes) (sig : Bytes)
        (cs : List Candidate) (expected : Bytes), sig.length ≠ 65 →
      verify_signature_recovery recover sig cs expected = none) := by
  refine ⟨?_, ?_, ?_⟩
  · intro recover r s expected c rest h27 h28
    simp [searchCandidates, h27, h28]
  · intro recover sig cs expected hlen hall
    unfold verify_signature_recovery
    rw [if_pos hlen, searchCandidates_eq_findSome]
    exact findSome?_none _ (trials cs) hall
  · intro recover sig cs expected hlen
    unfold verify_signature_recovery
    rw [if_neg hlen]

/-- C4 witness: the failure handling at concrete inputs — the
always-failing recovery stub over one candidate behaves as over none,
exhaustion yields `none`, and a 10-byte signature yields `none`. -/
theorem search_failure_handling_witness :
    (searchCandidates recoverNone 0 0 [] [⟨"A", [1]⟩] =
      searchCandidates recoverNone 0 0 [] [])
    ∧ verify_signature_recovery recoverNone sig65 [⟨"A", [1]⟩] [] = none
    ∧ verify_signature_recovery recoverNone (List.replicate 10 0)
        [⟨"A", [1]⟩] [] = none :=
  ⟨search_failure_handling.1 recoverNone 0 0 [] ⟨"A", [1]⟩ []
     (by decide) (by decide),
   search_failure_handling.2.1 recoverNone sig65 [⟨"A", [1]⟩] []
     (by decide) (by decide),
   search_failure_handling.2.2 recoverNone (List.replicate 10 0)
     [⟨"A", [1]⟩] [] (by decide)⟩

/-- C9: the search result depends only on the first 64 signature bytes
(r and s); two 65-byte signatures that agree there but differ in the
trailing v byte produce identical results over any candidate set and
expected address, because the search always tries parities 27 then 28
and never consults the sliced v component. -/
theorem search_ignores_v
    (recover : Nat → Nat → Nat → Bytes → Option Bytes)
    (cs : List Candidate) (expected : Bytes) (sig1 sig2 : Bytes)
    (h1 : sig1.length = 65) (h2 : sig2.length = 65)
    (h : sig1.take 64 = sig2.take 64) :
    verify_signature_recovery recover sig1 cs expected =
      verify_signature_recovery recover sig2 cs expected := by
  have h32 : (32 : Nat) ⊓ 64 = 32 := by norm_num
  have ht : sig1.take 32 = sig2.take 32 := by
    have hc := congrArg (List.take 32) h
    rw [List.take_take, List.take_take, h32] at hc
    exact hc
  have hd : (sig1.drop 32).take 32 = (sig2.drop 32).take 32 := by
    have hc := congrArg (List.drop 32) h
    rw [List.drop_take, List.drop_take] at hc
    norm_num at hc
    exact hc
  unfold verify_signature_recovery
  rw [if_pos h1, if_pos h2, ht, hd]

/-- C9 witness: two all-zero-body signatures with trailing bytes 27 and
28 give the same search result. -/
theorem search_ignores_v_witness :
    verify_signature_recovery recoverNone (List.replicate 64 0 ++ [27])
      [⟨"A", [1]⟩] [] =
      verify_signature_recovery recoverNone (List.replicate 64 0 ++ [28])
        [⟨"A", [1]⟩] [] :=
  search_ignores_v recoverNone [⟨"A", [1]⟩] []
    (List.replicate 64 0 ++ [27]) (List.replicate 64 0 ++ [28])
    (by decide) (by decide) (by decide)

/-! #### Round-trip of the three encodings (C8) -/

theorem normalizeKey_33 (b : Bytes) (h : b.length = 33) :
    TestAllWallets.normalizeKey b =
      (match decompressPubkey b with
       | some u => .ok (strip04 u)
       | none => .error TestAllWallets.NormErr.decompFail) := by
  unfold TestAllWallets.normalizeKey TestAllWallets.uncompressedBytesOf
  rw [if_pos h]
  cases decompressPubkey b <;> simp [Except.map]

theorem normalizeKey_64 (b : Bytes) (h : b.length = 64) :
    TestAllWallets.normalizeKey b = .ok b := by
  unfold TestAllWallets.normalizeKey TestAllWallets.uncompressedBytesOf
  rw [if_neg (by omega), if_pos h]
  simp [Except.map, strip04_cons4]

theorem normalizeKey_65 (b : Bytes) (h : b.length = 65) :
    TestAllWallets.normalizeKey b = .ok (strip04 b) := by
  unfold TestAllWallets.normalizeKey TestAllWallets.uncompressedBytesOf
  rw [if_neg (by omega), if_neg (by omega), if_pos h]
  simp [Except.map]

theorem rawEnc_length (x y : Nat) : (rawEnc x y).length = 64 := by
  simp [rawEnc, natToBE_length]

theorem rawEnc_head {x : Nat} (y : Nat) (hx4 : x / 256 ^ 31 % 256 ≠ 4) :
    (rawEnc x y).headD 0 ≠ 4 := by
  have hne : natToBE 32 x ≠ [] := by
    intro hcon
    have hl := natToBE_length 32 x
    rw [hcon] at hl
    simp at hl
  have hh : (natToBE 32 x).headD 0 = x / 256 ^ 31 % 256 := natToBE_head 31 x
  rw [rawEnc, headD_append_of_ne_nil hne, hh]
  exact hx4

theorem decompress_compressEnc (x y : Nat) (hxy : onCurvePt x y) :
    decompressPubkey (compressEnc x y) = some (rawEnc x y) := by
  obtain ⟨hx, hy, hc⟩ := hxy
  have hxlt : x < 256 ^ 32 :=
    lt_of_lt_of_le hx (by norm_num [secpP])
  have hhead : (compressEnc x y).headD 0 = if y % 2 = 0 then 2 else 3 := rfl
  have hlen : (compressEnc x y).length = 33 := by
    simp [compressEnc, natToBE_length]
  have hcond : (compressEnc x y).length = 33 ∧
      ((compressEnc x y).headD 0 = 2 ∨ (compressEnc x y).headD 0 = 3) := by
    refine ⟨hlen, ?_⟩
    rw [hhead]
    rcases Nat.mod_two_eq_zero_or_one y with hp | hp <;> simp [hp]
  have hdropb : (compressEnc x y).drop 1 = natToBE 32 x := rfl
  have hbe : beNat (natToBE 32 x) = x := beNat_natToBE 32 x hxlt
  have hrlt : sqrtCand x < secpP := by
    rw [sqrtCand, powMod_eq]
    exact Nat.mod_lt _ (by norm_num [secpP])
  have hspec := sqrtCand_spec x y hy hc
  have hsqr : (sqrtCand x * sqrtCand x) % secpP = (x * x * x + 7) % secpP := by
    rcases hspec with hr | hr
    · rw [hr]; exact hc
    · rw [hr, ← hc]
      apply (ZMod.natCast_eq_natCast_iff' _ _ secpP).mp
      push_cast [Nat.cast_sub hy.le, ZMod.natCast_self]
      ring
  have honc : xOnCurve x = true := by
    simp [xOnCurve, hsqr]
  have hysel : (if sqrtCand x % 2 = (if y % 2 = 0 then 2 else 3) % 2
      then sqrtCand x else secpP - sqrtCand x) = y := by
    have hpar2 : (if y % 2 = 0 then 2 else 3) % 2 = y % 2 := by
      rcases Nat.mod_two_eq_zero_or_one y with hp | hp <;> simp [hp]
    rw [hpar2]
    rcases hspec with hr | hr
    · rw [hr]; simp
    · have hy0 : y ≠ 0 := by
        intro h0
        rw [h0, Nat.sub_zero] at hr
        omega
      have hodd : secpP % 2 = 1 := by norm_num [secpP]
      have hne : sqrtCand x % 2 ≠ y % 2 := by omega
      rw [if_neg hne, hr]
      omega
  unfold decompressPubkey
  rw [if_pos hcond, hdropb, hbe, if_pos honc, hhead, hysel]
  rfl

/-- C8 counterexample: the point `(x04, y04)` is on the curve, but its X
coordinate's encoding begins with the byte 0x04, so on the compressed
encoding the scripts' defensive 0x04-stripping removes the first byte of
X from the decompressed 64-byte key: the normalization of the compressed
encoding (63 bytes) differs from the normalization of the raw 64-byte
encoding, and the derived addresses differ too. -/
theorem roundtrip_fails_on_x04 :
    onCurvePt x04 y04
    ∧ TestAllWallets.normalizeKey (compressEnc x04 y04) ≠
        TestAllWallets.normalizeKey (rawEnc x04 y04)
    ∧ TestAllWallets.derive_address_from_public_key (compressEnc x04 y04) ≠
        TestAllWallets.derive_address_from_public_key (rawEnc x04 y04) := by
  refine ⟨by decide, by decide, by decide⟩

/-- C8 amended: for every valid secp256k1 point whose X coordinate's
big-endian encoding does not begin with the byte 0x04, the compressed
33-byte, prefixed 65-byte and raw 64-byte encodings of the point all
normalize to the identical raw 64-byte X‖Y byte string.  (The
counterexample forces the exclusion of points with a leading X byte of
0x04, where the compressed path strips a byte of X.) -/
theorem roundtrip_encodings (x y : Nat) (hxy : onCurvePt x y)
    (hx4 : x / 256 ^ 31 % 256 ≠ 4) :
    TestAllWallets.normalizeKey (compressEnc x y) = .ok (rawEnc x y)
    ∧ TestAllWallets.normalizeKey (uncomp65 x y) = .ok (rawEnc x y)
    ∧ TestAllWallets.normalizeKey (rawEnc x y) = .ok (rawEnc x y) := by
  have hrawlen : (rawEnc x y).length = 64 := rawEnc_length x y
  refine ⟨?_, ?_, ?_⟩
  · rw [normalizeKey_33 _ (by simp [compressEnc, natToBE_length]),
      decompress_compressEnc x y hxy]
    show Except.ok (strip04 (rawEnc x y)) = Except.ok (rawEnc x y)
    rw [strip04_head_ne (rawEnc_head y hx4)]
  · rw [normalizeKey_65 _ (by simp [uncomp65, hrawlen]), uncomp65,
      strip04_cons4]
  · exact normalizeKey_64 _ hrawlen

/-- C8 witness: the amended round-trip at the repository's wallet point
`(xW, yW)`. -/
theorem roundtrip_encodings_witness :
    TestAllWallets.normalizeKey (compressEnc xW yW) = .ok (rawEnc xW yW)
    ∧ TestAllWallets.normalizeKey (uncomp65 xW yW) = .ok (rawEnc xW yW)
    ∧ TestAllWallets.normalizeKey (rawEnc xW yW) = .ok (rawEnc xW yW) :=
  roundtrip_encodings xW yW (by decide) (by decide)

end SafeAndroid
